import Mathlib

/-!
Shallow embedding of the AIB bank-statement parser
(src/golden_parser_aib.py) and verification of the frozen claims.

Modelling conventions:
* Python `str` is modelled by Lean `String`; character-level work is done
  on `List Char` (`String.data`).  Only the ASCII behaviour of
  `str.lower`/`str.upper`/`str.isdigit`/`\d`/`\s` is modelled, which covers
  every string the program manipulates (bank-statement cell text).
* Python `float` is modelled by `ℚ`.  The program only ever parses decimal
  literals with at most two fractional digits and formats them back with
  two fractional digits, a range in which binary floating point round-trips
  decimally, so the rational model is exact on the program's domain.
  Non-finite literals (`inf`, `nan`) and `_` digit separators accepted by
  Python's `float` are outside the model.
* Fallible external collaborators (PyMuPDF) are modelled by explicit input
  data (tables, words, raw page text) and, for the resource claim, by an
  explicit per-page `Except`-style outcome.
-/

namespace GoldenParser

/-! ## Basic string utilities (Python `str` semantics on `List Char`) -/

/-- ASCII whitespace recognised by Python's `str.strip` / `float`. -/
def isPyWs (c : Char) : Bool :=
  c == ' ' || c == '\t' || c == '\n' || c == '\r' || c == '\x0b' || c == '\x0c'

/-- Python `str.strip()`: drop whitespace from both ends. -/
def pyStrip (l : List Char) : List Char :=
  List.reverse (List.dropWhile isPyWs (List.reverse (List.dropWhile isPyWs l)))

/-- `cell.strip()` on a Lean `String`. -/
def strStrip (s : String) : String := String.mk (pyStrip s.data)

/-- Python `str.lower()` (ASCII). -/
def lowerL (l : List Char) : List Char := l.map Char.toLower

/-- Python `str.upper()` (ASCII). -/
def upperL (l : List Char) : List Char := l.map Char.toUpper

/-- `pat in s` for strings: some contiguous run of `l` equals `pat`. -/
def hasSub (pat : List Char) : List Char → Bool
  | [] => pat.isEmpty
  | c :: t => List.isPrefixOf pat (c :: t) || hasSub pat t

/-- `s.replace("dr", "")`: left-to-right, non-overlapping removal. -/
def eraseDr : List Char → List Char
  | 'd' :: 'r' :: rest => eraseDr rest
  | c :: rest => c :: eraseDr rest
  | [] => []

/-- `"dr" in s`. -/
def hasDr (l : List Char) : Bool := hasSub ['d', 'r'] l

/-- `s.replace(",", "")` (single-character removal is a filter). -/
def removeCommasL (l : List Char) : List Char := l.filter (fun c => c != ',')

/-- `txt.replace(",", "")` on a `String`. -/
def removeCommasStr (s : String) : String := String.mk (removeCommasL s.data)

/-- Python `" ".join(cells)`. -/
def joinSpace (l : List String) : String := String.intercalate " " l

/-- Python `s.isdigit()` (ASCII): non-empty and all digits. -/
def isDigitsL (l : List Char) : Bool := !l.isEmpty && l.all Char.isDigit

/-- `s.isdigit()` on a `String`. -/
def isDigitsStr (s : String) : Bool := isDigitsL s.data

/-- Numeric value of a digit run. -/
def digitsToNat (l : List Char) : ℕ :=
  l.foldl (fun a c => a * 10 + (c.toNat - 48)) 0

/-! ## `float(s)`: Python decimal-literal conversion, modelled over ℚ.

`float` strips surrounding whitespace, accepts an optional sign, an
integer part and/or a fractional part (at least one digit in total), and
an optional exponent.  On any other input it raises `ValueError`, which
the model renders as `none`. -/

/-- Exponent suffix after the `e`/`E`: optional sign then digits, with
nothing allowed to follow.  `sgnN` is the signed mantissa numerator and
`fpLen` the number of fractional digits, so the value is
`sgnN * 10^±e / 10^fpLen` (built with `mkRat` so the kernel can compute). -/
def expPart (sgnN : ℤ) (fpLen : ℕ) (t : List Char) : Option ℚ :=
  let p : Bool × List Char :=
    match t with
    | '-' :: u => (true, u)
    | '+' :: u => (false, u)
    | _ => (false, t)
  let ed := p.2.takeWhile Char.isDigit
  let r := p.2.dropWhile Char.isDigit
  if ed.isEmpty || !r.isEmpty then none
  else
    let e := digitsToNat ed
    some (if p.1 then mkRat sgnN (10 ^ (fpLen + e))
          else mkRat (sgnN * (10 : ℤ) ^ e) (10 ^ fpLen))

/-- `float(s)` for finite decimal literals; `none` models `ValueError`.
The value `± (ipdigits.fpdigits) * 10^±e` is assembled as an exact
rational `mkRat (sign * digits) 10^fpLen`. -/
def pyFloat (l0 : List Char) : Option ℚ :=
  let l := pyStrip l0
  let sp : ℤ × List Char :=
    match l with
    | '-' :: t => (-1, t)
    | '+' :: t => (1, t)
    | _ => (1, l)
  let ip := sp.2.takeWhile Char.isDigit
  let r1 := sp.2.dropWhile Char.isDigit
  let fr : List Char × List Char :=
    match r1 with
    | '.' :: t => (t.takeWhile Char.isDigit, t.dropWhile Char.isDigit)
    | _ => ([], r1)
  if ip.isEmpty && fr.1.isEmpty then none
  else
    let sgnN : ℤ := sp.1 * (digitsToNat ip * 10 ^ fr.1.length + digitsToNat fr.1 : ℕ)
    match fr.2 with
    | [] => some (mkRat sgnN (10 ^ fr.1.length))
    | 'e' :: t => expPart sgnN fr.1.length t
    | 'E' :: t => expPart sgnN fr.1.length t
    | _ => none

/-! ## Constants & config (source lines 24-48) -/

def MONTHS : List String :=
  ["Jan", "Feb", "Mar", "Apr", "May", "Jun",
   "Jul", "Aug", "Sep", "Oct", "Nov", "Dec"]

/-- `COLUMN_BOUNDS`: name, lower x-bound, optional upper x-bound
(`none` models `float("inf")`), in the source's insertion order. -/
def COLUMN_BOUNDS : List (String × ℚ × Option ℚ) :=
  [("DEBIT", 250, some 324), ("CREDIT", 325, some 350), ("BALANCE", 395, none)]

/-! ## `AMOUNT_RE` (`^\d+\.\d{2}$`) -/

/-- Exact match of `\d+\.\d{2}`. -/
def matchAmountCore (m : List Char) : Bool :=
  let ds := m.takeWhile Char.isDigit
  let rest := m.dropWhile Char.isDigit
  !ds.isEmpty &&
    (match rest with
     | '.' :: a :: b :: [] => a.isDigit && b.isDigit
     | _ => false)

/-- `AMOUNT_RE.match(cell)` is truthy: `re` lets `$` also match just
before one final newline. -/
def amountReB (s : String) : Bool :=
  matchAmountCore (if s.data.getLast? == some '\n' then s.data.dropLast else s.data)

/-! ## Amount parser: `parse_amount_field` (source lines 74-100) -/

/-- The cleaned text: `amount_str.strip().lower().replace("€","")
.replace("£","").replace(",","")`. -/
def cleanedAmount (s : String) : List Char :=
  ((lowerL (pyStrip s.data)).filter (fun c => c != '€')
    |>.filter (fun c => c != '£')).filter (fun c => c != ',')

/-- The string finally handed to `float`, after overdraft-marker removal
(balance fields only) and leading-`-` removal. -/
def numericPart (s : String) (is_balance : Bool) : List Char :=
  let s0 := cleanedAmount s
  let s1 := if hasDr s0 && is_balance then pyStrip (eraseDr s0) else s0
  if s1.head? == some '-' then s1.tail else s1

/-- `parse_amount_field(amount_str, is_balance)`.  `numericPart` is the
`s` at the point of the `float(s)` call; in the overdrawn-balance branch
the source's `elif negative` negation is unreachable, so the value is
negated exactly once there. -/
def parse_amount_field (amount_str : String) (is_balance : Bool) : ℚ :=
  if pyStrip amount_str.data = [] then 0
  else if hasDr (cleanedAmount amount_str) then
    if is_balance then
      match pyFloat (numericPart amount_str is_balance) with
      | some v => -v
      | none => 0
    else 0
  else
    match pyFloat (numericPart amount_str is_balance) with
    | some v =>
      if (cleanedAmount amount_str).head? == some '-' then -v else v
    | none => 0

/-! ## Column classifier: `find_amount_coordinates` (source lines 60-71) -/

/-- A positioned word as delivered by the text layer.  The source
destructures word tuples as `x0, y0, x1, y1, txt, *rest`; the unused
block/line/word indices in `rest` are omitted from the model. -/
structure Word where
  x0 : ℚ
  y0 : ℚ
  x1 : ℚ
  y1 : ℚ
  txt : String
  deriving DecidableEq

/-- The dictionary returned by `find_amount_coordinates`. -/
structure Coords where
  x0 : ℚ
  y0 : ℚ
  x1 : ℚ
  y1 : ℚ
  column : String
  deriving DecidableEq

/-- `f"{amount:.2f}"`: format with exactly two fractional digits,
rounding half to even (the kernel-computable integer-cents rendering of
Python's fixed-point float formatting). -/
def formatTwoDec (q : ℚ) : String :=
  let a : ℤ := q.num * 100
  let b : ℤ := (q.den : ℤ)
  let f : ℤ := Int.fdiv a b
  let r : ℤ := a - f * b
  let cents : ℤ :=
    if 2 * r < b then f else if b < 2 * r then f + 1
    else if f % 2 = 0 then f else f + 1
  let m : ℕ := cents.natAbs
  (if cents < 0 then "-" else "") ++ toString (m / 100) ++ "." ++
    (if m % 100 < 10 then "0" else "") ++ toString (m % 100)

/-- `xmin <= x0 <= xmax` for one entry of `COLUMN_BOUNDS`
(`none` upper bound models `float("inf")`). -/
def bandContains (x lo : ℚ) (hi : Option ℚ) : Bool :=
  decide (lo ≤ x) &&
    (match hi with
     | some h => decide (x ≤ h)
     | none => true)

/-- The inner loop over `COLUMN_BOUNDS.items()`: first band containing
the word's left x-coordinate, else `"UNKNOWN"`. -/
def classifyColumn (x : ℚ) : String :=
  match COLUMN_BOUNDS.find? (fun b => bandContains x b.2.1 b.2.2) with
  | some b => b.1
  | none => "UNKNOWN"

/-- The `for x0, y0, x1, y1, txt, *rest in words` loop with a fixed
formatted target. -/
def findAmountGo (target : String) : List Word → Option Coords
  | [] => none
  | w :: ws =>
    if removeCommasStr w.txt = target
    then some ⟨w.x0, w.y0, w.x1, w.y1, classifyColumn w.x0⟩
    else findAmountGo target ws

/-- `find_amount_coordinates(words, amount)`. -/
def find_amount_coordinates (words : List Word) (amount : ℚ) : Option Coords :=
  findAmountGo (formatTwoDec amount) words

/-! ## Date extractor (source lines 53-57 and 103-114) -/

def balFwdPat : List Char := "BALANCE FORWARD".data
def lendAtPat : List Char := "LENDING @".data

/-- `" ".join(table[i]).upper()` contains either anchor phrase. -/
def anchorRowB (row : List String) : Bool :=
  hasSub balFwdPat (upperL (joinSpace row).data) ||
  hasSub lendAtPat (upperL (joinSpace row).data)

/-- The day/month/year test shared by the date extractor and the row
parser: first three cells, stripped, are all-digits / a month / all-digits;
on success the composed `"D Mon YYYY"` string. -/
def dateFromRow : List String → Option String
  | d :: m :: y :: _ =>
    if isDigitsStr (strStrip d) && MONTHS.contains (strStrip m) &&
        isDigitsStr (strStrip y)
    then some (strStrip d ++ " " ++ strStrip m ++ " " ++ strStrip y)
    else none
  | _ => none

/-- Inner loop `for j in range(i, min(i + 4, limit))`, fuel-counted:
`dateScanFrom table j fuel` inspects rows `j, j+1, …, j+fuel-1`. -/
def dateScanFrom (table : List (List String)) : ℕ → ℕ → Option String
  | _, 0 => none
  | j, fuel + 1 =>
    match dateFromRow (table.getD j []) with
    | some s => some s
    | none => dateScanFrom table (j + 1) fuel

/-- Outer loop `for i in range(limit)`, fuel-counted from row `i`:
on an anchor row, scan its 4-row window; keep searching on failure. -/
def dateAnchorScan (table : List (List String)) (limit : ℕ) : ℕ → ℕ → Option String
  | _, 0 => none
  | i, fuel + 1 =>
    if anchorRowB (table.getD i []) then
      match dateScanFrom table i (min (i + 4) limit - i) with
      | some s => some s
      | none => dateAnchorScan table limit (i + 1) fuel
    else dateAnchorScan table limit (i + 1) fuel

/-- `extract_initial_date(table)` (source lines 103-114). -/
def extract_initial_date (table : List (List String)) : String :=
  (dateAnchorScan table (min table.length 12) 0 (min table.length 12)).getD ""

/-- One position of `DATE_RE` matching: `\d{1,2}\s+(Jan|…|Dec)\s+\d{4}`
anchored at the head of `l` (greedy, as analysed from the pattern: a run
of more than two digits can never satisfy `\d{1,2}\s`). -/
def matchDateAt (l : List Char) : Option String :=
  let ds := l.takeWhile Char.isDigit
  let r1 := l.dropWhile Char.isDigit
  if ds.isEmpty || decide (2 < ds.length) then none
  else
    let ws1 := r1.takeWhile isPyWs
    let r2 := r1.dropWhile isPyWs
    if ws1.isEmpty then none
    else
      match MONTHS.find? (fun m => List.isPrefixOf m.data r2) with
      | none => none
      | some m =>
        let r3 := r2.drop m.data.length
        let ws2 := r3.takeWhile isPyWs
        let r4 := r3.dropWhile isPyWs
        if ws2.isEmpty then none
        else
          let ys := r4.take 4
          if decide (ys.length = 4) && ys.all Char.isDigit
          then some (String.mk ds ++ " " ++ m ++ " " ++ String.mk ys)
          else none

/-- `DATE_RE.search`: leftmost match over all start positions. -/
def dateSearch : List Char → Option String
  | [] => none
  | c :: t =>
    match matchDateAt (c :: t) with
    | some s => some s
    | none => dateSearch t

/-- `extract_date_from_raw_text(text)` (source lines 53-57). -/
def extract_date_from_raw_text (text : String) : Option String :=
  dateSearch (text ++ " BALANCE FORWARD").data

/-! ## `find_transaction_start_index` (source lines 117-125) -/

/-- `" ".join(cell.strip() for cell in row).upper()` contains an anchor
phrase (this loop, unlike `extract_initial_date`, strips each cell). -/
def anchorRowStrippedB (row : List String) : Bool :=
  hasSub balFwdPat (upperL (joinSpace (row.map strStrip)).data) ||
  hasSub lendAtPat (upperL (joinSpace (row.map strStrip)).data)

/-- Index of the first anchor row (`for i, row in enumerate(table[:12])`). -/
def firstAnchorIdx : List (List String) → Option ℕ
  | [] => none
  | r :: rest =>
    if anchorRowStrippedB r then some 0
    else (firstAnchorIdx rest).map (· + 1)

/-- Python truthiness of `any(table[idx])`: some cell is a non-empty string
(not stripped). -/
def rowHasContent (row : List String) : Bool := row.any (fun c => !c.isEmpty)

/-- `while idx < len(table) and not any(table[idx]): idx += 1`, fuel-counted.
With `fuel = table.length` the loop can never exhaust the fuel while its
condition still holds, so the wrapper below is exact. -/
def skipBlankFuel (table : List (List String)) : ℕ → ℕ → ℕ
  | idx, 0 => idx
  | idx, fuel + 1 =>
    if idx < table.length && !rowHasContent (table.getD idx []) then
      skipBlankFuel table (idx + 1) fuel
    else idx

/-- `find_transaction_start_index(table)`. -/
def find_transaction_start_index (table : List (List String)) : ℕ :=
  match firstAnchorIdx (table.take 12) with
  | some i => skipBlankFuel table (i + 3) (table.length + 1)
  | none => 0

/-! ## Row parser: `parse_transaction_row` (source lines 130-179) -/

/-- The transaction dictionary.  `x_coord`/`y_coord` hold the matched
amount word's coordinates when classification found one; `none` models the
empty-string placeholder written otherwise. -/
structure Transaction where
  row : ℕ
  date : String
  details : String
  debit : ℚ
  credit : ℚ
  balance : ℚ
  x_coord : Option ℚ
  y_coord : Option ℚ
  deriving DecidableEq

/-- An explicit inhabitant (used only to state theorems via `getD`). -/
def txDefault : Transaction := ⟨0, "", "", 0, 0, 0, none, none⟩

/-- `float(cell)` for a cell that matched `AMOUNT_RE` (conversion cannot
fail on such a cell, so the default is never taken). -/
def cellAmount (cell : String) : ℚ := (pyFloat cell.data).getD 0

/-- `col = coords["column"] if coords else "DEBIT"` for the matched cell. -/
def colOf (words : List Word) (cell : String) : String :=
  match find_amount_coordinates words (cellAmount cell) with
  | some c => c.column
  | none => "DEBIT"

/-- First loop of `parse_transaction_row`: the first cell matching
`AMOUNT_RE` fixes `(debit, credit, balance, coords)`; its amount goes to
the single field selected by the classified column (none of them for
`"UNKNOWN"`). -/
def rowMonetary (row : List String) (words : List Word) : ℚ × ℚ × ℚ × Option Coords :=
  match row.find? amountReB with
  | none => (0, 0, 0, none)
  | some cell =>
    (if colOf words cell = "DEBIT" then cellAmount cell else 0,
     if colOf words cell = "CREDIT" then cellAmount cell else 0,
     if colOf words cell = "BALANCE" then cellAmount cell else 0,
     find_amount_coordinates words (cellAmount cell))

/-- Second loop of `parse_transaction_row`: `for i in range(len(row)-2)`,
sliding a three-cell window; on success returns the composed date and the
cells after the window (`row[i+3:]`). -/
def findDateTriple : List String → Option (String × List String)
  | d :: m :: y :: rest =>
    match dateFromRow (d :: m :: y :: rest) with
    | some s => some (s, rest)
    | none => findDateTriple (m :: y :: rest)
  | _ => none

/-- Date and details of a row: the explicit date triple with the
non-amount cells after it, or the inherited date with all non-amount
cells of the row. -/
def dateDetails (row : List String) (inherited_date : String) : String × String :=
  match findDateTriple row with
  | some (d, rest) =>
    (d, strStrip (joinSpace (rest.filter (fun c => !amountReB c))))
  | none =>
    (inherited_date, strStrip (joinSpace (row.filter (fun c => !amountReB c))))

/-- `parse_transaction_row(row, idx, words, inherited_date)`. -/
def parse_transaction_row (row : List String) (idx : ℕ) (words : List Word)
    (inherited_date : String) : Option Transaction :=
  if (dateDetails row inherited_date).1 = "" ∧ (dateDetails row inherited_date).2 = "" ∧
      (rowMonetary row words).1 = 0 ∧ (rowMonetary row words).2.1 = 0 ∧
      (rowMonetary row words).2.2.1 = 0 then none
  else
    some { row := idx,
           date := (dateDetails row inherited_date).1,
           details := (dateDetails row inherited_date).2,
           debit := (rowMonetary row words).1,
           credit := (rowMonetary row words).2.1,
           balance := (rowMonetary row words).2.2.1,
           x_coord := (rowMonetary row words).2.2.2.map Coords.x0,
           y_coord := (rowMonetary row words).2.2.2.map Coords.y0 }

/-! ## Page assembler: `clean_page_transactions` (source lines 182-216) -/

/-- `initial_date`: the table scan, falling back to the raw-text scan
(`or ""`). -/
def computedInitialDate (table : List (List String)) (rawText : String) : String :=
  let d := extract_initial_date table
  if d = "" then (extract_date_from_raw_text rawText).getD "" else d

/-- The row loop of `clean_page_transactions`: skip blank rows, parse the
stripped row, thread the carried date (`current_date`). -/
def cleanRows (words : List Word) : List (List String) → ℕ → String → List Transaction
  | [], _, _ => []
  | raw :: rest, idx, current =>
    if raw.any (fun c => !(strStrip c).isEmpty) then
      match parse_transaction_row (raw.map strStrip) idx words current with
      | none => cleanRows words rest (idx + 1) current
      | some tx =>
        if tx.date ≠ "" ∧ tx.date ≠ current then
          tx :: cleanRows words rest (idx + 1) tx.date
        else
          { tx with date := current } :: cleanRows words rest (idx + 1) current
    else cleanRows words rest (idx + 1) current

/-- `clean_page_transactions(table, page_num, page, words)`: the page
object is consumed only for `page.get_text()`, modelled by `rawText`. -/
def clean_page_transactions (table : List (List String)) (rawText : String)
    (words : List Word) : List Transaction :=
  cleanRows words (table.drop (find_transaction_start_index table))
    (find_transaction_start_index table) (computedInitialDate table rawText)

/-! ## Per-PDF extraction: `read_pdf_and_extract` (source lines 221-249)

The document-decoding collaborator is modelled per page: either the page
yields its (optional) table, raw text and words, or one of the PyMuPDF
calls raises.  The boolean records whether control reaches `doc.close()`
(the source has no `try`/`finally`, so an exception propagates before the
close). -/

inductive PageResult where
  | ok (table : Option (List (List String))) (rawText : String) (words : List Word)
  | err
  deriving DecidableEq

/-- The page loop: accumulate transactions; a page with no table is
skipped; a raising page aborts the run before `doc.close()`. -/
def runExtract : List PageResult → List Transaction →
    Except Unit (List Transaction) × Bool
  | [], acc => (Except.ok acc, true)
  | PageResult.err :: _, _ => (Except.error (), false)
  | PageResult.ok none _ _ :: rest, acc => runExtract rest acc
  | PageResult.ok (some table) raw words :: rest, acc =>
    runExtract rest (acc ++ clean_page_transactions table raw words)

/-- `read_pdf_and_extract(pdf_path)` over the modelled page outcomes:
its result together with whether `doc.close()` was executed. -/
def read_pdf_and_extract (pages : List PageResult) :
    Except Unit (List Transaction) × Bool :=
  runExtract pages []

/-- Whether the document handle is released in the modelled execution. -/
def docClosed (pages : List PageResult) : Bool := (read_pdf_and_extract pages).2

/-! ## Export writer: `export_to_csv` (source lines 252-283)

The CSV file content is modelled as a list of rows of cell strings;
`none` models the early return that writes no file at all.  `fRepr`
abstracts Python's `str()` rendering of a non-zero float (the writer
stringifies non-string values); the zero-vs-empty logic (`tx["debit"] or
""`) is independent of it. -/

def csvHeader (debug : Bool) : List String :=
  ["date", "details", "debit", "credit", "balance"] ++
    (if debug then ["x_coord", "y_coord"] else [])

/-- `tx[k] or ""` for a float field: zero is falsy and becomes `""`. -/
def csvCell (fRepr : ℚ → String) (q : ℚ) : String :=
  if q = 0 then "" else fRepr q

/-- A coordinate field: the stored float, or the `""` placeholder. -/
def csvOptCell (fRepr : ℚ → String) : Option ℚ → String
  | none => ""
  | some v => fRepr v

/-- One written CSV data row, in `fieldnames` order. -/
def csvRow (debug : Bool) (fRepr : ℚ → String) (tx : Transaction) : List String :=
  [tx.date, tx.details, csvCell fRepr tx.debit, csvCell fRepr tx.credit,
   csvCell fRepr tx.balance] ++
    (if debug then [csvOptCell fRepr tx.x_coord, csvOptCell fRepr tx.y_coord] else [])

/-- `export_to_csv(transactions, csv_path, debug)`. -/
def export_to_csv (transactions : List Transaction) (debug : Bool)
    (fRepr : ℚ → String) : Option (List (List String)) :=
  if transactions.isEmpty then none
  else some (csvHeader debug :: transactions.map (csvRow debug fRepr))

/-! ## Helper lemmas -/

lemma cleanedAmount_ne_nil_of_head {s : String} {c : Char}
    (h : (cleanedAmount s).head? = some c) : pyStrip s.data ≠ [] := by
  intro h0
  simp [cleanedAmount, h0, lowerL] at h

/-! ## Claims -/

/-- **C3**: overdraft-marker and sign handling of `parse_amount_field`:
the marker on a balance field strips and negates; on a non-balance field
it forces `0.0`; a leading `-` negates; and for a balance field carrying
both a leading `-` and the marker exactly one negation is applied (the
overdraft branch returns before the leading-`-` negation). -/
theorem spec_C3 :
    parse_amount_field "45.00 dr" true = -45 ∧
    parse_amount_field "45.00 dr" false = 0 ∧
    parse_amount_field "-45.00" false = -45 ∧
    parse_amount_field "-45.00" true = -45 ∧
    parse_amount_field "-45.00 dr" true = -45 ∧
    (∀ s : String, hasDr (cleanedAmount s) = false →
      (cleanedAmount s).head? = some '-' →
      parse_amount_field s false = -((pyFloat (cleanedAmount s).tail).getD 0)) ∧
    (∀ s : String, hasDr (cleanedAmount s) = true → pyStrip s.data ≠ [] →
      parse_amount_field s true = -((pyFloat (numericPart s true)).getD 0)) := by
  refine ⟨by decide, by decide, by decide, by decide, by decide, ?_, ?_⟩
  · intro s h1 h2
    have hne : pyStrip s.data ≠ [] := cleanedAmount_ne_nil_of_head h2
    have hbeq : ((cleanedAmount s).head? == some '-') = true := by rw [h2]; simp
    have htail : numericPart s false = (cleanedAmount s).tail := by
      simp only [numericPart, h1, Bool.false_and, Bool.and_false,
        Bool.false_eq_true, if_false, hbeq, if_true]
    unfold parse_amount_field
    rw [if_neg hne, h1]
    simp only [Bool.false_eq_true, if_false, htail, hbeq, if_true]
    cases hp : pyFloat (cleanedAmount s).tail <;> simp [hp]
  · intro s h1 h2
    unfold parse_amount_field
    rw [if_neg h2, h1]
    simp only [if_true]
    cases hp : pyFloat (numericPart s true) <;> simp [hp]

/-- **C6**: `parse_amount_field` is total and never signals an error:
empty and whitespace-only input give `0.0`; currency symbols and
thousands separators are stripped (`"1,234.56"` parses to `1234.56`);
and whenever the final numeric conversion fails the result is `0.0`. -/
theorem spec_C6 :
    (∀ b, parse_amount_field "" b = 0) ∧
    (∀ (s : String) (b : Bool), pyStrip s.data = [] → parse_amount_field s b = 0) ∧
    parse_amount_field "1,234.56" false = 123456 / 100 ∧
    (∀ (s : String) (b : Bool), pyFloat (numericPart s b) = none →
      parse_amount_field s b = 0) := by
  refine ⟨fun b => by cases b <;> decide, ?_, ?_, ?_⟩
  · intro s b h
    unfold parse_amount_field
    rw [if_pos h]
  · have h : parse_amount_field "1,234.56" false = mkRat 123456 100 := by decide
    rw [h, Rat.mkRat_eq_div]; norm_num
  · intro s b h
    unfold parse_amount_field
    split
    · rfl
    · split
      · cases b
        · rfl
        · simp [h]
      · simp [h]

theorem spec_C6_witness :
    pyFloat (numericPart "12..3" false) = none ∧
    parse_amount_field "12..3" false = 0 :=
  ⟨by decide, spec_C6.2.2.2 "12..3" false (by decide)⟩

theorem spec_C3_witness :
    parse_amount_field "-45.00" false =
      -((pyFloat (cleanedAmount "-45.00").tail).getD 0) :=
  spec_C3.2.2.2.2.2.1 "-45.00" (by decide) (by decide)

/-- The `doc.close()` flag of a run is exactly "no page raised". -/
lemma runExtract_closed (pages : List PageResult) :
    ∀ acc, (runExtract pages acc).2 = pages.all (fun p => p != PageResult.err) := by
  induction pages with
  | nil => intro acc; rfl
  | cons p rest ih =>
    intro acc
    cases p with
    | err => rfl
    | ok t r w =>
      cases t with
      | none => simp [runExtract, ih]
      | some table => simp [runExtract, ih]

/-- **C9** (code bug): the source has no `try`/`finally` around the page
loop, so when a page's extraction raises, `doc.close()` is never
executed; it runs exactly when no page raises.  The claim that the
handle is released "in every execution" fails on the raising execution
`[PageResult.err]`. -/
theorem spec_C9 :
    docClosed [PageResult.err] = false ∧
    (∀ pages : List PageResult,
      docClosed pages = pages.all (fun p => p != PageResult.err)) :=
  ⟨rfl, fun pages => runExtract_closed pages []⟩

/-- **C8** (counterexample): on the empty transaction sequence the
export is a no-op — no file content, in particular no header row, is
written, contradicting "for every transaction sequence … writes a
header". -/
theorem spec_C8_counterexample :
    export_to_csv [] true (fun q => toString q.num) = none := rfl

/-- **C8** (amended): for every *non-empty* transaction sequence the CSV
is the exact header `date, details, debit, credit, balance` (plus
`x_coord, y_coord` exactly when `debug`) followed by one row per
transaction in which zero-valued debit/credit/balance are the empty
string and non-zero amounts are rendered values. -/
theorem spec_C8 : ∀ (txs : List Transaction) (debug : Bool) (fRepr : ℚ → String),
    (txs ≠ [] → export_to_csv txs debug fRepr =
      some (csvHeader debug :: txs.map (csvRow debug fRepr))) ∧
    csvHeader debug =
      (if debug then ["date", "details", "debit", "credit", "balance",
                      "x_coord", "y_coord"]
       else ["date", "details", "debit", "credit", "balance"]) ∧
    (∀ tx : Transaction, csvRow debug fRepr tx =
      [tx.date, tx.details,
       if tx.debit = 0 then "" else fRepr tx.debit,
       if tx.credit = 0 then "" else fRepr tx.credit,
       if tx.balance = 0 then "" else fRepr tx.balance] ++
      (if debug then [csvOptCell fRepr tx.x_coord, csvOptCell fRepr tx.y_coord]
       else [])) := by
  intro txs debug fRepr
  refine ⟨?_, ?_, ?_⟩
  · intro h
    unfold export_to_csv
    rw [if_neg (by simpa using h)]
  · cases debug <;> rfl
  · intro tx
    cases debug <;> rfl

theorem spec_C8_witness :
    export_to_csv [txDefault] false (fun _ => "0.0") =
      some (csvHeader false :: [txDefault].map (csvRow false (fun _ => "0.0"))) :=
  (spec_C8 [txDefault] false (fun _ => "0.0")).1 (by simp)

/-- If no word's comma-stripped text equals the target, the scan finds
nothing. -/
lemma findAmountGo_none (target : String) : ∀ ws : List Word,
    (∀ w ∈ ws, removeCommasStr w.txt ≠ target) → findAmountGo target ws = none := by
  intro ws
  induction ws with
  | nil => intro _; rfl
  | cons w ws ih =>
    intro h
    unfold findAmountGo
    rw [if_neg (h w (List.mem_cons_self w ws))]
    exact ih (fun w' hw' => h w' (List.mem_cons_of_mem w hw'))

/-- **C5**: the column classifier scans words in order, binds to the
first word whose comma-stripped text equals the two-decimal formatting
of the amount, maps its left x-coordinate to the fixed bands
(DEBIT `[250,324]`, CREDIT `[325,350]`, BALANCE `[395,∞)`, otherwise
UNKNOWN with the word's coordinates), and yields `none` when no word
matches. -/
theorem spec_C5 :
    (∀ (w : Word) (ws : List Word) (amount : ℚ),
      removeCommasStr w.txt = formatTwoDec amount →
      find_amount_coordinates (w :: ws) amount =
        some ⟨w.x0, w.y0, w.x1, w.y1, classifyColumn w.x0⟩) ∧
    (∀ (w : Word) (ws : List Word) (amount : ℚ),
      removeCommasStr w.txt ≠ formatTwoDec amount →
      find_amount_coordinates (w :: ws) amount = find_amount_coordinates ws amount) ∧
    (∀ (words : List Word) (amount : ℚ),
      (∀ w, w ∈ words → removeCommasStr w.txt ≠ formatTwoDec amount) →
      find_amount_coordinates words amount = none) ∧
    (classifyColumn 260 = "DEBIT" ∧ classifyColumn 330 = "CREDIT" ∧
     classifyColumn 500 = "BALANCE" ∧ classifyColumn 10 = "UNKNOWN") ∧
    (find_amount_coordinates [⟨260, 100, 280, 110, "5.00"⟩] 5 =
        some ⟨260, 100, 280, 110, "DEBIT"⟩ ∧
     find_amount_coordinates [⟨330, 100, 350, 110, "5.00"⟩] 5 =
        some ⟨330, 100, 350, 110, "CREDIT"⟩ ∧
     find_amount_coordinates [⟨500, 100, 520, 110, "5.00"⟩] 5 =
        some ⟨500, 100, 520, 110, "BALANCE"⟩ ∧
     find_amount_coordinates [⟨10, 100, 30, 110, "5.00"⟩] 5 =
        some ⟨10, 100, 30, 110, "UNKNOWN"⟩) := by
  refine ⟨?_, ?_, ?_, by decide, by decide⟩
  · intro w ws amount h
    unfold find_amount_coordinates findAmountGo
    rw [if_pos h]
  · intro w ws amount h
    simp only [find_amount_coordinates, findAmountGo]
    rw [if_neg h]
  · intro words amount h
    unfold find_amount_coordinates
    exact findAmountGo_none (formatTwoDec amount) words h

theorem spec_C5_witness :
    find_amount_coordinates [Word.mk 260 100 280 110 "5.00"] 5 =
      some ⟨260, 100, 280, 110, classifyColumn 260⟩ :=
  spec_C5.1 (Word.mk 260 100 280 110 "5.00") [] 5 (by decide)

/-- Projections of a successfully parsed row come from `rowMonetary`. -/
lemma parse_some_fields {row : List String} {idx : ℕ} {words : List Word}
    {inh : String} {tx : Transaction}
    (h : parse_transaction_row row idx words inh = some tx) :
    tx.debit = (rowMonetary row words).1 ∧
    tx.credit = (rowMonetary row words).2.1 ∧
    tx.balance = (rowMonetary row words).2.2.1 := by
  unfold parse_transaction_row at h
  split at h
  · exact absurd h (by simp)
  · rw [Option.some.injEq] at h
    subst h
    exact ⟨rfl, rfl, rfl⟩

lemma rowMonetary_some {row : List String} {words : List Word} {cell : String}
    (h : row.find? amountReB = some cell) :
    rowMonetary row words =
      (if colOf words cell = "DEBIT" then cellAmount cell else 0,
       if colOf words cell = "CREDIT" then cellAmount cell else 0,
       if colOf words cell = "BALANCE" then cellAmount cell else 0,
       find_amount_coordinates words (cellAmount cell)) := by
  unfold rowMonetary
  rw [h]

lemma rowMonetary_none {row : List String} {words : List Word}
    (h : row.find? amountReB = none) :
    rowMonetary row words = (0, 0, 0, none) := by
  unfold rowMonetary
  rw [h]

/-- Whatever the classified column is, at most one of the three
monetary `if`s is the amount. -/
lemma ite_col_pairwise (col : String) (amt : ℚ) :
    ((if col = "DEBIT" then amt else 0) = 0 ∨
      (if col = "CREDIT" then amt else 0) = 0) ∧
    ((if col = "DEBIT" then amt else 0) = 0 ∨
      (if col = "BALANCE" then amt else 0) = 0) ∧
    ((if col = "CREDIT" then amt else 0) = 0 ∨
      (if col = "BALANCE" then amt else 0) = 0) := by
  by_cases hD : col = "DEBIT"
  · subst hD
    exact ⟨Or.inr (if_neg (by decide)), Or.inr (if_neg (by decide)),
      Or.inl (if_neg (by decide))⟩
  · refine ⟨Or.inl (if_neg hD), Or.inl (if_neg hD), ?_⟩
    by_cases hC : col = "CREDIT"
    · subst hC
      exact Or.inr (if_neg (by decide))
    · exact Or.inl (if_neg hC)

/-- **C4**: row parsing takes only the first `AMOUNT_RE` cell (the
monetary fields are a function of `row.find? amountReB`), and every
parsed transaction has at most one non-zero field among
debit/credit/balance — in particular at most one of debit/credit. -/
theorem spec_C4 :
    (∀ (row row' : List String) (words : List Word),
      row.find? amountReB = row'.find? amountReB →
      rowMonetary row words = rowMonetary row' words) ∧
    (∀ (row : List String) (idx : ℕ) (words : List Word) (inh : String)
      (tx : Transaction),
      parse_transaction_row row idx words inh = some tx →
      (tx.debit = 0 ∨ tx.credit = 0) ∧ (tx.debit = 0 ∨ tx.balance = 0) ∧
      (tx.credit = 0 ∨ tx.balance = 0)) := by
  constructor
  · intro row row' words h
    unfold rowMonetary
    rw [h]
  · intro row idx words inh tx h
    obtain ⟨hd, hc, hb⟩ := parse_some_fields h
    rw [hd, hc, hb]
    cases hf : row.find? amountReB with
    | none => rw [rowMonetary_none hf]; simp
    | some cell => rw [rowMonetary_some hf]; exact ite_col_pairwise _ _

theorem spec_C4_witness :
    parse_transaction_row ["1", "Jan", "2024", "Shop", "50.00"] 0 [] "" =
      some ⟨0, "1 Jan 2024", "Shop", 50, 0, 0, none, none⟩ ∧
    (((50 : ℚ) = 0 ∨ (0 : ℚ) = 0) ∧ ((50 : ℚ) = 0 ∨ (0 : ℚ) = 0) ∧
      ((0 : ℚ) = 0 ∨ (0 : ℚ) = 0)) :=
  ⟨by decide,
   spec_C4.2 ["1", "Jan", "2024", "Shop", "50.00"] 0 [] ""
     ⟨0, "1 Jan 2024", "Shop", 50, 0, 0, none, none⟩ (by decide)⟩

/-- **C1** (counterexample): with a matching word at `x0 = 10` the
classification is `"UNKNOWN"`, and the parsed transaction carries the
amount in *no* monetary field (`debit = 0`, not `5.00`): the amount is
discarded from debit/credit/balance, only its coordinates are kept. -/
theorem spec_C1_counterexample :
    find_amount_coordinates [Word.mk 10 100 30 110 "5.00"] (cellAmount "5.00") =
      some ⟨10, 100, 30, 110, "UNKNOWN"⟩ ∧
    parse_transaction_row ["Coffee", "5.00"] 0 [Word.mk 10 100 30 110 "5.00"]
      "1 Jan 2024" =
      some ⟨0, "1 Jan 2024", "Coffee", 0, 0, 0, some 10, some 100⟩ ∧
    (0 : ℚ) ≠ cellAmount "5.00" := by
  refine ⟨by decide, by decide, by decide⟩

/-- **C1** (amended): the default-to-DEBIT applies only when *no*
positioned word matches the amount (classification `none`); when
classification returns column `"UNKNOWN"`, none of debit/credit/balance
receives the amount (it is dropped from the monetary fields). -/
theorem spec_C1 : ∀ (row : List String) (idx : ℕ) (words : List Word)
    (inh : String) (tx : Transaction) (cell : String),
    parse_transaction_row row idx words inh = some tx →
    row.find? amountReB = some cell →
    (find_amount_coordinates words (cellAmount cell) = none →
      tx.debit = cellAmount cell ∧ tx.credit = 0 ∧ tx.balance = 0) ∧
    (∀ c : Coords, find_amount_coordinates words (cellAmount cell) = some c →
      c.column = "UNKNOWN" →
      tx.debit = 0 ∧ tx.credit = 0 ∧ tx.balance = 0) := by
  intro row idx words inh tx cell h hf
  obtain ⟨hd, hc, hb⟩ := parse_some_fields h
  rw [hd, hc, hb, rowMonetary_some hf]
  constructor
  · intro hnone
    have hcol : colOf words cell = "DEBIT" := by
      unfold colOf
      rw [hnone]
    rw [hcol]
    dsimp only
    refine ⟨?_, ?_, ?_⟩
    · exact if_pos rfl
    · exact if_neg (by decide)
    · exact if_neg (by decide)
  · intro c hsome hcolumn
    have hcol : colOf words cell = "UNKNOWN" := by
      unfold colOf
      rw [hsome]
      exact hcolumn
    rw [hcol]
    dsimp only
    refine ⟨?_, ?_, ?_⟩
    · exact if_neg (by decide)
    · exact if_neg (by decide)
    · exact if_neg (by decide)

/-! ### Characterisation of the date extractor's two scanning loops -/

lemma dateScanFrom_succ (table : List (List String)) (j n : ℕ) :
    dateScanFrom table j (n + 1) =
      match dateFromRow (table.getD j []) with
      | some s => some s
      | none => dateScanFrom table (j + 1) n := rfl

lemma dateAnchorScan_succ (table : List (List String)) (limit i n : ℕ) :
    dateAnchorScan table limit i (n + 1) =
      if anchorRowB (table.getD i []) then
        match dateScanFrom table i (min (i + 4) limit - i) with
        | some s => some s
        | none => dateAnchorScan table limit (i + 1) n
      else dateAnchorScan table limit (i + 1) n := rfl

/-- The window scan finds nothing iff no row of the window has a date. -/
lemma dateScanFrom_eq_none_iff (table : List (List String)) :
    ∀ (fuel j : ℕ), dateScanFrom table j fuel = none ↔
      ∀ k, k < j + fuel → j ≤ k → dateFromRow (table.getD k []) = none := by
  intro fuel
  induction fuel with
  | zero =>
    intro j
    refine iff_of_true rfl ?_
    intro k hk1 hk2
    omega
  | succ n ih =>
    intro j
    rw [dateScanFrom_succ]
    cases hd : dateFromRow (table.getD j []) with
    | some s =>
      refine iff_of_false (by simp) ?_
      intro h
      have hj := h j (by omega) (le_refl j)
      rw [hd] at hj
      exact Option.noConfusion hj
    | none =>
      rw [ih (j + 1)]
      constructor
      · intro h k hk1 hk2
        rcases Nat.eq_or_lt_of_le hk2 with he | hl
        · rw [← he]
          exact hd
        · exact h k (by omega) (by omega)
      · intro h k hk1 hk2
        exact h k (by omega) (by omega)

/-- A window-scan hit is a date row inside the window. -/
lemma dateScanFrom_eq_some (table : List (List String)) :
    ∀ (fuel j : ℕ) (s : String), dateScanFrom table j fuel = some s →
      ∃ k, j ≤ k ∧ k < j + fuel ∧ dateFromRow (table.getD k []) = some s := by
  intro fuel
  induction fuel with
  | zero => intro j s h; exact absurd h (by simp [dateScanFrom])
  | succ n ih =>
    intro j s h
    rw [dateScanFrom_succ] at h
    cases hd : dateFromRow (table.getD j []) with
    | some s' =>
      rw [hd] at h
      have hs : s' = s := Option.some.inj h
      exact ⟨j, le_refl j, by omega, by rw [hd, hs]⟩
    | none =>
      rw [hd] at h
      obtain ⟨k, h1, h2, h3⟩ := ih (j + 1) s h
      exact ⟨k, by omega, by omega, h3⟩

/-- The full scan finds nothing iff no anchor row's window has a date. -/
lemma dateAnchorScan_eq_none_iff (table : List (List String)) (limit : ℕ) :
    ∀ (fuel i : ℕ), dateAnchorScan table limit i fuel = none ↔
      ∀ k, k < i + fuel → i ≤ k → anchorRowB (table.getD k []) = true →
        ∀ j, j < min (k + 4) limit → k ≤ j →
          dateFromRow (table.getD j []) = none := by
  intro fuel
  induction fuel with
  | zero =>
    intro i
    refine iff_of_true rfl ?_
    intro k hk1 hk2
    omega
  | succ n ih =>
    intro i
    rw [dateAnchorScan_succ]
    cases ha : anchorRowB (table.getD i []) with
    | false =>
      rw [if_neg (by simp [ha]), ih (i + 1)]
      constructor
      · intro h k hk1 hk2 hanch j hj1 hj2
        rcases Nat.eq_or_lt_of_le hk2 with he | hl
        · rw [← he, ha] at hanch
          exact absurd hanch (by simp)
        · exact h k (by omega) (by omega) hanch j hj1 hj2
      · intro h k hk1 hk2 hanch j hj1 hj2
        exact h k (by omega) (by omega) hanch j hj1 hj2
    | true =>
      rw [if_pos rfl]
      cases hw : dateScanFrom table i (min (i + 4) limit - i) with
      | some s =>
        refine iff_of_false (by simp) ?_
        intro h
        obtain ⟨k, hk1, hk2, hk3⟩ := dateScanFrom_eq_some table _ i s hw
        have := h i (by omega) (le_refl i) ha k (by omega) hk1
        rw [hk3] at this
        exact Option.noConfusion this
      | none =>
        show dateAnchorScan table limit (i + 1) n = none ↔ _
        rw [ih (i + 1)]
        constructor
        · intro h k hk1 hk2 hanch j hj1 hj2
          rcases Nat.eq_or_lt_of_le hk2 with he | hl
          · rw [← he] at hj1 hj2
            have hwn := (dateScanFrom_eq_none_iff table _ i).mp hw
            exact hwn j (by omega) (by omega)
          · exact h k (by omega) (by omega) hanch j hj1 hj2
        · intro h k hk1 hk2 hanch j hj1 hj2
          exact h k (by omega) (by omega) hanch j hj1 hj2

/-- A full-scan hit comes from a date row in some anchor row's window. -/
lemma dateAnchorScan_eq_some (table : List (List String)) (limit : ℕ) :
    ∀ (fuel i : ℕ) (s : String), dateAnchorScan table limit i fuel = some s →
      ∃ k j, i ≤ k ∧ k < i + fuel ∧ anchorRowB (table.getD k []) = true ∧
        k ≤ j ∧ j < min (k + 4) limit ∧
        dateFromRow (table.getD j []) = some s := by
  intro fuel
  induction fuel with
  | zero => intro i s h; exact absurd h (by simp [dateAnchorScan])
  | succ n ih =>
    intro i s h
    rw [dateAnchorScan_succ] at h
    by_cases ha : anchorRowB (table.getD i []) = true
    · rw [if_pos ha] at h
      cases hw : dateScanFrom table i (min (i + 4) limit - i) with
      | some s' =>
        rw [hw] at h
        have hs : s' = s := Option.some.inj h
        obtain ⟨k, hk1, hk2, hk3⟩ := dateScanFrom_eq_some table _ i s' hw
        exact ⟨i, k, le_refl i, by omega, ha, hk1, by omega, by rw [hk3, hs]⟩
      | none =>
        rw [hw] at h
        obtain ⟨k, j, h1, h2, h3, h4, h5, h6⟩ := ih (i + 1) s h
        exact ⟨k, j, by omega, by omega, h3, h4, h5, h6⟩
    · rw [if_neg ha] at h
      obtain ⟨k, j, h1, h2, h3, h4, h5, h6⟩ := ih (i + 1) s h
      exact ⟨k, j, by omega, by omega, h3, h4, h5, h6⟩

/-- A date composed by `dateFromRow` is never the empty string. -/
lemma dateFromRow_ne_empty :
    ∀ (cells : List String) (s : String), dateFromRow cells = some s → s ≠ "" := by
  intro cells s h he
  subst he
  cases cells with
  | nil => exact Option.noConfusion h
  | cons d t =>
    cases t with
    | nil => exact Option.noConfusion h
    | cons m u =>
      cases u with
      | nil => exact Option.noConfusion h
      | cons y rest =>
        simp only [dateFromRow] at h
        by_cases hc : (isDigitsStr (strStrip d) && MONTHS.contains (strStrip m) &&
            isDigitsStr (strStrip y)) = true
        · rw [if_pos hc] at h
          have hs := Option.some.inj h
          have hd := congrArg String.data hs
          simp [String.data_append] at hd
        · rw [if_neg hc] at h
          exact Option.noConfusion h

/-- Both scans only look at rows below `B` when they agree there. -/
lemma dateScanFrom_congr (t1 t2 : List (List String)) (B : ℕ)
    (hg : ∀ k, k < B → t1.getD k [] = t2.getD k []) :
    ∀ (fuel j : ℕ), j + fuel ≤ B →
      dateScanFrom t1 j fuel = dateScanFrom t2 j fuel := by
  intro fuel
  induction fuel with
  | zero => intro j _; rfl
  | succ n ih =>
    intro j hb
    rw [dateScanFrom_succ, dateScanFrom_succ, hg j (by omega), ih (j + 1) (by omega)]

lemma dateAnchorScan_congr (t1 t2 : List (List String)) (limit : ℕ)
    (hg : ∀ k, k < limit → t1.getD k [] = t2.getD k []) :
    ∀ (fuel i : ℕ), i + fuel ≤ limit →
      dateAnchorScan t1 limit i fuel = dateAnchorScan t2 limit i fuel := by
  intro fuel
  induction fuel with
  | zero => intro i _; rfl
  | succ n ih =>
    intro i hb
    rw [dateAnchorScan_succ, dateAnchorScan_succ, hg i (by omega),
      dateScanFrom_congr t1 t2 limit hg (min (i + 4) limit - i) i (by omega),
      ih (i + 1) (by omega)]

/-- `getD` below the kept prefix sees through `take`. -/
lemma getD_take (l : List (List String)) :
    ∀ (n k : ℕ), k < n → (l.take n).getD k [] = l.getD k [] := by
  induction l with
  | nil => intro n k _; simp
  | cons x xs ih =>
    intro n k hk
    cases n with
    | zero => omega
    | succ m =>
      cases k with
      | zero => rfl
      | succ k' => simpa using ih m k' (by omega)

/-- **C7**: the date extractor depends only on the first 12 rows; it
returns `""` exactly when no anchor row within the first 12 rows has a
day/month/year row in its 4-row window (still inside the 12-row prefix);
and a non-empty result is the composed `"D Mon YYYY"` string of such a
window row. -/
theorem spec_C7 (table : List (List String)) :
    extract_initial_date table = extract_initial_date (table.take 12) ∧
    (extract_initial_date table = "" ↔
      ∀ i, i < min table.length 12 → anchorRowB (table.getD i []) = true →
        ∀ j, j < min (i + 4) (min table.length 12) → i ≤ j →
          dateFromRow (table.getD j []) = none) ∧
    (extract_initial_date table ≠ "" →
      ∃ i j, i < min table.length 12 ∧ anchorRowB (table.getD i []) = true ∧
        i ≤ j ∧ j < min (i + 4) (min table.length 12) ∧
        dateFromRow (table.getD j []) = some (extract_initial_date table)) := by
  refine ⟨?_, ⟨?_, ?_⟩, ?_⟩
  · unfold extract_initial_date
    have hL : min (table.take 12).length 12 = min table.length 12 := by
      rw [List.length_take]
      omega
    rw [hL]
    have hg : ∀ k, k < min table.length 12 →
        table.getD k [] = (table.take 12).getD k [] :=
      fun k hk => (getD_take table 12 k (by omega)).symm
    rw [dateAnchorScan_congr table (table.take 12) (min table.length 12) hg
      (min table.length 12) 0 (by omega)]
  · intro h i hi hanch j hj1 hj2
    cases hscan : dateAnchorScan table (min table.length 12) 0
        (min table.length 12) with
    | none =>
      exact (dateAnchorScan_eq_none_iff table (min table.length 12)
        (min table.length 12) 0).mp hscan i (by omega) (by omega) hanch j hj1 hj2
    | some s =>
      unfold extract_initial_date at h
      rw [hscan] at h
      obtain ⟨k, j', h1, h2, h3, h4, h5, h6⟩ :=
        dateAnchorScan_eq_some table (min table.length 12)
          (min table.length 12) 0 s hscan
      exact absurd (by simpa using h) (dateFromRow_ne_empty _ _ h6)
  · intro h
    have hnone : dateAnchorScan table (min table.length 12) 0
        (min table.length 12) = none :=
      (dateAnchorScan_eq_none_iff table (min table.length 12)
        (min table.length 12) 0).mpr
        (fun k hk1 hk2 hanch j hj1 hj2 => h k (by omega) hanch j hj1 hj2)
    unfold extract_initial_date
    rw [hnone]
    rfl
  · intro hne
    cases hscan : dateAnchorScan table (min table.length 12) 0
        (min table.length 12) with
    | none =>
      exfalso
      apply hne
      unfold extract_initial_date
      rw [hscan]
      rfl
    | some s =>
      have hs : extract_initial_date table = s := by
        unfold extract_initial_date
        rw [hscan]
        rfl
      obtain ⟨k, j, h1, h2, h3, h4, h5, h6⟩ :=
        dateAnchorScan_eq_some table (min table.length 12)
          (min table.length 12) 0 s hscan
      exact ⟨k, j, by omega, h3, h4, h5, by rw [hs]; exact h6⟩

theorem spec_C7_witness :
    extract_initial_date [["no anchor here"]] = "" :=
  (spec_C7 [["no anchor here"]]).2.1.mpr (by decide)

/-- Once the carried date is non-empty it stays non-empty, and so does
each emitted transaction's date. -/
lemma cleanRows_date_nonempty (words : List Word) :
    ∀ (rows : List (List String)) (idx : ℕ) (current : String), current ≠ "" →
    ∀ tx ∈ cleanRows words rows idx current, tx.date ≠ "" := by
  intro rows
  induction rows with
  | nil =>
    intro idx current _ tx htx
    simp [cleanRows] at htx
  | cons raw rest ih =>
    intro idx current hcur tx htx
    unfold cleanRows at htx
    split at htx
    · split at htx
      · exact ih _ _ hcur tx htx
      · split at htx
        · rename_i hcond
          rcases List.mem_cons.mp htx with h1 | h1
          · subst h1
            exact hcond.1
          · exact ih _ _ hcond.1 tx h1
        · rcases List.mem_cons.mp htx with h1 | h1
          · subst h1
            exact hcur
          · exact ih _ _ hcur tx h1
    · exact ih _ _ hcur tx htx

/-- **C2**: with a non-empty `initial_date` every emitted transaction
has a non-empty date; one parsed row's date updates the carried date
exactly when it is non-empty and differs from it, and is otherwise
overwritten by the carried date (forward-only propagation); and the
dateless row after `("1","Jan","2024","Shop","50.00")` inherits the date
`"1 Jan 2024"`. -/
theorem spec_C2 :
    (∀ (table : List (List String)) (rawText : String) (words : List Word),
      computedInitialDate table rawText ≠ "" →
      ∀ tx ∈ clean_page_transactions table rawText words, tx.date ≠ "") ∧
    (∀ (words : List Word) (raw : List String) (rest : List (List String))
      (idx : ℕ) (current : String) (tx : Transaction),
      raw.any (fun c => !(strStrip c).isEmpty) = true →
      parse_transaction_row (raw.map strStrip) idx words current = some tx →
      cleanRows words (raw :: rest) idx current =
        (if tx.date ≠ "" ∧ tx.date ≠ current then
          tx :: cleanRows words rest (idx + 1) tx.date
        else
          { tx with date := current } :: cleanRows words rest (idx + 1) current)) ∧
    (clean_page_transactions
        [["1", "Jan", "2024", "Shop", "50.00"], ["Coffee", "3.00"]] "" []
      |>.map Transaction.date) = ["1 Jan 2024", "1 Jan 2024"] := by
  refine ⟨?_, ?_, by decide⟩
  · intro table rawText words h tx htx
    unfold clean_page_transactions at htx
    exact cleanRows_date_nonempty words _ _ _ h tx htx
  · intro words raw rest idx current tx hblank hparse
    conv_lhs => rw [cleanRows]
    rw [hblank, hparse]
    rfl

theorem spec_C2_witness :
    ((clean_page_transactions
        [["BALANCE FORWARD"], ["1", "Jan", "2024"], [""], ["Coffee", "5.00"]]
        "" []).getD 0 txDefault).date ≠ "" :=
  spec_C2.1 [["BALANCE FORWARD"], ["1", "Jan", "2024"], [""], ["Coffee", "5.00"]]
    "" [] (by decide) _ (by decide)

/-- The blank-skipping loop never moves the index below its start, and
never past `max idx (len table)`. -/
lemma skipBlankFuel_le (table : List (List String)) :
    ∀ (fuel idx : ℕ), skipBlankFuel table idx fuel ≤ max idx table.length := by
  intro fuel
  induction fuel with
  | zero => intro idx; exact le_max_left _ _
  | succ n ih =>
    intro idx
    unfold skipBlankFuel
    split
    · rename_i hcond
      have h1 : idx < table.length := by
        have := (Bool.and_eq_true _ _).mp hcond
        exact of_decide_eq_true this.1
      have h2 := ih (idx + 1)
      omega
    · exact le_max_left _ _

/-- A found anchor index is a position of the scanned prefix. -/
lemma firstAnchorIdx_lt :
    ∀ (rows : List (List String)) (i : ℕ),
    firstAnchorIdx rows = some i → i < rows.length := by
  intro rows
  induction rows with
  | nil => intro i h; simp [firstAnchorIdx] at h
  | cons r rest ih =>
    intro i h
    unfold firstAnchorIdx at h
    split at h
    · cases h
      exact Nat.succ_pos _
    · cases hr : firstAnchorIdx rest with
      | none => rw [hr] at h; simp at h
      | some j =>
        rw [hr] at h
        simp at h
        have := ih j hr
        simp only [List.length_cons]
        omega

/-- The row loop emits at most one transaction per remaining row. -/
lemma cleanRows_length_le (words : List Word) :
    ∀ (rows : List (List String)) (idx : ℕ) (current : String),
    (cleanRows words rows idx current).length ≤ rows.length := by
  intro rows
  induction rows with
  | nil => intro idx current; simp [cleanRows]
  | cons raw rest ih =>
    intro idx current
    unfold cleanRows
    split
    · split
      · exact le_trans (ih _ _) (by simp)
      · split
        · simpa using Nat.succ_le_succ (ih _ _)
        · simpa using Nat.succ_le_succ (ih _ _)
    · exact le_trans (ih _ _) (by simp)

/-- **C10** (counterexample): on the one-row table `[["BALANCE
FORWARD"]]` the transaction-start search returns `0 + 3 = 3`, which is
*not* between `0` and `len(table) = 1` inclusive. -/
theorem spec_C10_counterexample :
    find_transaction_start_index [["BALANCE FORWARD"]] = 3 ∧
    ¬(find_transaction_start_index [["BALANCE FORWARD"]] ≤
        List.length [["BALANCE FORWARD"]]) := by
  exact ⟨by decide, by decide⟩

/-- **C10** (amended): page assembly is total on every table shape; the
date extractor reads cells `[0..2]` only behind a three-cell pattern
guard; the transaction-start index lies in `[0, len(table) + 2]` (it can
exceed `len(table)`, by at most `anchor + 3`), and iterating
`table[start_idx:]` is still well-defined — an out-of-range start simply
iterates nothing. -/
theorem spec_C10 : ∀ (table : List (List String)) (rawText : String)
    (words : List Word),
    find_transaction_start_index table ≤ table.length + 2 ∧
    (∀ cells : List String, cells.length < 3 → dateFromRow cells = none) ∧
    (table.length ≤ find_transaction_start_index table →
      table.drop (find_transaction_start_index table) = []) ∧
    (clean_page_transactions table rawText words).length ≤
      (table.drop (find_transaction_start_index table)).length := by
  intro table rawText words
  refine ⟨?_, ?_, ?_, ?_⟩
  · unfold find_transaction_start_index
    cases ha : firstAnchorIdx (table.take 12) with
    | none => simp
    | some i =>
      dsimp only
      have hi : i < (table.take 12).length := firstAnchorIdx_lt _ _ ha
      rw [List.length_take] at hi
      have hs := skipBlankFuel_le table (table.length + 1) (i + 3)
      omega
  · intro cells h
    match cells with
    | [] => rfl
    | [_] => rfl
    | [_, _] => rfl
    | _ :: _ :: _ :: _ => simp only [List.length_cons] at h; omega
  · intro h
    exact List.drop_eq_nil_of_le h
  · unfold clean_page_transactions
    exact cleanRows_length_le _ _ _ _

theorem spec_C10_witness :
    List.length [["BALANCE FORWARD"]] ≤
      find_transaction_start_index [["BALANCE FORWARD"]] ∧
    List.drop (find_transaction_start_index [["BALANCE FORWARD"]])
      [["BALANCE FORWARD"]] = [] :=
  ⟨by decide, (spec_C10 [["BALANCE FORWARD"]] "" []).2.2.1 (by decide)⟩

theorem spec_C1_witness :
    parse_transaction_row ["Coffee", "9.99"] 3 [] "1 Jan 2024" =
      some ⟨3, "1 Jan 2024", "Coffee", cellAmount "9.99", 0, 0, none, none⟩ ∧
    (cellAmount "9.99" = cellAmount "9.99" ∧ (0 : ℚ) = 0 ∧ (0 : ℚ) = 0) :=
  ⟨by decide,
   (spec_C1 ["Coffee", "9.99"] 3 [] "1 Jan 2024"
       ⟨3, "1 Jan 2024", "Coffee", cellAmount "9.99", 0, 0, none, none⟩ "9.99"
       (by decide) (by decide)).1 (by decide)⟩

end GoldenParser
